import Mathlib

/-!
Verification of the signal-detection core of the market-insight agent.

The development shallowly embeds the algorithmic core of three modules:

* `modules/cme_volume.py` — rolling volume-spike detection
  (`CMEVolumeTracker.detect_volume_spikes`) and the economic-calendar
  proximity matcher (`CMEVolumeTracker.check_economic_events`);
* `modules/macro_sentiment.py` — yield-curve interpretation
  (`_interpret_yield_curve`) and the environment classifier
  (`rate_macro_environment`);
* `modules/news_sentiment.py` — the per-symbol sentiment aggregator
  (`generate_position_suggestions`).

Modelling conventions:
* Python floats are modelled by exact rationals (`ℚ`).  Where the source
  can produce a non-finite float (division of a pandas column by a zero
  baseline yields `+inf`, `-inf` or `NaN`), the result type `PFloat`
  records that outcome explicitly, and comparisons against a finite
  threshold follow IEEE-754 ordering (`+inf > t` is true, `-inf > t` and
  `NaN > t` are false).  Exact cancellation in a pandas mean produces
  positive zero, so division of a positive value by a zero baseline gives
  `+inf`.
* Dates and timestamps are modelled as integer day / clock numbers;
  Python `datetime` subtraction `.days` on midnight datetimes is exact
  integer subtraction.
* `datetime.now()` read inside a function is modelled as an explicit
  extra argument, so that dependence of the output on the wall clock is
  visible in the embedding.
* Python `dict` values keyed by insertion order are modelled as
  association lists grown at the tail, preserving iteration order.
-/

/-- Result of a pandas float division: finite rational, or one of the
IEEE non-finite values that the source can produce when the divisor is
zero. -/
inductive PFloat where
  | fin (q : ℚ)
  | posInf
  | negInf
  | nan
deriving DecidableEq, Repr

/-- Pandas column division `v / avg`: finite quotient when `avg ≠ 0`;
for `avg = 0` (a positive IEEE zero, as produced by exact cancellation in
a mean) the result is `+inf`, `-inf` or `NaN` according to the sign of
`v`. -/
def pdiv (v avg : ℚ) : PFloat :=
  if avg ≠ 0 then .fin (v / avg)
  else if 0 < v then .posInf
  else if v < 0 then .negInf
  else .nan

/-- IEEE comparison of a (possibly non-finite) float with a finite
threshold, as used by the pandas filter `volume_ratio > threshold`. -/
def PFloat.gtQ : PFloat → ℚ → Bool
  | .fin q, t => q > t
  | .posInf, _ => true
  | .negInf, _ => false
  | .nan, _ => false

/-- Arithmetic mean of a list of rationals (only ever applied to
nonempty windows, since the source uses `min_periods=1`). -/
def listMean (l : List ℚ) : ℚ := l.sum / l.length

/-- The window of values feeding the rolling mean at index `i`:
`pandas.rolling(window=w, min_periods=1)` takes the last `min (i+1) w`
values, *including* index `i` itself. -/
def windowSlice (w : ℕ) (vs : List ℚ) (i : ℕ) : List ℚ :=
  (vs.take (i + 1)).drop (i + 1 - w)

/-- The `avg_volume` column: rolling mean with `window=w, min_periods=1`. -/
def rollingMean (w : ℕ) (vs : List ℚ) : List ℚ :=
  (List.range vs.length).map fun i => listMean (windowSlice w vs i)

/-- One row of the volume dataframe: a date (day number) and a volume. -/
structure VolRow where
  date : ℤ
  volume : ℚ
deriving DecidableEq, Repr

/-- One emitted volume-spike event (`type` is always `"volume_spike"` in
the source and is omitted; `ratioVal` is the `ratio` field). -/
structure SpikeEvent where
  date : ℤ
  volume : ℚ
  avg_volume : ℚ
  ratioVal : PFloat
deriving DecidableEq, Repr

/-- Stable insertion of a row into a list sorted by date (kept after all
rows with date ≤ its own, matching pandas' stable `sort_values`). -/
def insertRowByDate (r : VolRow) : List VolRow → List VolRow
  | [] => [r]
  | x :: xs => if x.date ≤ r.date then x :: insertRowByDate r xs else r :: x :: xs

/-- Stable sort of the dataframe by the `date` column
(`volume_df.sort_values('date')`). -/
def sortRowsByDate (rows : List VolRow) : List VolRow :=
  rows.foldl (fun acc r => insertRowByDate r acc) []

/-- Shallow embedding of `CMEVolumeTracker.detect_volume_spikes`:
sort by date, compute the rolling `avg_volume` column
(`window=lookback_period, min_periods=1`), divide to get the
`volume_ratio` column, filter rows with ratio above the configured
threshold, and format each surviving row as an event. -/
def detect_volume_spikes (rows : List VolRow) (lookback_period : ℕ) (threshold : ℚ) :
    List SpikeEvent :=
  let sorted := sortRowsByDate rows
  let vols := sorted.map VolRow.volume
  let avgs := rollingMean lookback_period vols
  let withAvg := sorted.zip avgs
  let spikes := withAvg.filter fun rc => (pdiv rc.1.volume rc.2).gtQ threshold
  spikes.map fun rc =>
    { date := rc.1.date, volume := rc.1.volume, avg_volume := rc.2
      ratioVal := pdiv rc.1.volume rc.2 }

/-- The `avg_volume` entry for index `i` of a sorted row list: mean of
the last `min (i+1) w` volumes, point `i` included. -/
def avgAt (w : ℕ) (rows : List VolRow) (i : ℕ) : ℚ :=
  listMean (windowSlice w (rows.map VolRow.volume) i)

/-- The event that `detect_volume_spikes` would format for row `i` of a
sorted row list. -/
def eventAt (w : ℕ) (rows : List VolRow) (i : ℕ) (hi : i < rows.length) : SpikeEvent :=
  { date := (rows.get ⟨i, hi⟩).date
    volume := (rows.get ⟨i, hi⟩).volume
    avg_volume := avgAt w rows i
    ratioVal := pdiv (rows.get ⟨i, hi⟩).volume (avgAt w rows i) }

lemma length_rollingMean (w : ℕ) (vs : List ℚ) : (rollingMean w vs).length = vs.length := by
  simp [rollingMean]

lemma getElem_rollingMean (w : ℕ) (vs : List ℚ) (i : ℕ) (hi : i < vs.length) :
    (rollingMean w vs).get ⟨i, (length_rollingMean w vs).symm ▸ hi⟩ =
      listMean (windowSlice w vs i) := by
  simp [rollingMean]

/-- Membership characterization of the spike detector on an
already-sorted dataframe: the emitted events are exactly the rows whose
volume-to-rolling-average quotient exceeds the threshold under IEEE
comparison. -/
lemma mem_detect_volume_spikes_iff (rows : List VolRow) (w : ℕ) (t : ℚ)
    (hs : sortRowsByDate rows = rows) (e : SpikeEvent) :
    e ∈ detect_volume_spikes rows w t ↔
      ∃ i, ∃ hi : i < rows.length,
        (pdiv (rows.get ⟨i, hi⟩).volume (avgAt w rows i)).gtQ t = true ∧
        e = eventAt w rows i hi := by
  unfold detect_volume_spikes
  rw [hs]
  simp only [List.mem_map, List.mem_filter]
  constructor
  · rintro ⟨rc, ⟨hmem, hp⟩, rfl⟩
    rw [List.mem_iff_getElem] at hmem
    obtain ⟨i, hlen, hrc⟩ := hmem
    have hiz : i < (rows.map VolRow.volume).length := by
      have := hlen
      simp only [List.length_zip, length_rollingMean, List.length_map, min_self] at this ⊢
      exact this
    have hirows : i < rows.length := by simpa using hiz
    have hget : (rows.zip (rollingMean w (rows.map VolRow.volume)))[i] =
        (rows[i], listMean (windowSlice w (rows.map VolRow.volume) i)) := by
      rw [List.getElem_zip]
      congr 1
      exact getElem_rollingMean w (rows.map VolRow.volume) i hiz
    rw [hget] at hrc
    refine ⟨i, hirows, ?_, ?_⟩
    · rw [← hrc] at hp
      simpa [avgAt] using hp
    · rw [← hrc]
      simp [eventAt, avgAt, List.get_eq_getElem]
  · rintro ⟨i, hi, hp, rfl⟩
    have hiz : i < (rows.map VolRow.volume).length := by simpa using hi
    have hlen : i < (rows.zip (rollingMean w (rows.map VolRow.volume))).length := by
      simp only [List.length_zip, length_rollingMean, List.length_map, min_self]
      exact hi
    refine ⟨(rows[i], listMean (windowSlice w (rows.map VolRow.volume) i)), ⟨?_, ?_⟩, ?_⟩
    · rw [List.mem_iff_getElem]
      refine ⟨i, hlen, ?_⟩
      rw [List.getElem_zip]
      congr 1
      exact getElem_rollingMean w (rows.map VolRow.volume) i hiz
    · simpa [avgAt] using hp
    · simp [eventAt, avgAt, List.get_eq_getElem]

/-- Modelled from the spec: the baseline rule the specification claims
for the detector — the arithmetic mean of up to `w` points *preceding*
`i` (all available when fewer than `w` precede), with the point skipped
when zero points precede or the baseline is zero. -/
def specBaseline (w : ℕ) (vs : List ℚ) (i : ℕ) : Option ℚ :=
  let pre := (vs.take i).drop (i - w)
  if pre = [] then none else some (listMean pre)

/-- Modelled from the spec: the indices the specification's
exclusive-baseline rule would flag as spikes. -/
def specSpikeIndices (vs : List ℚ) (w : ℕ) (t : ℚ) : List ℕ :=
  (List.range vs.length).filter fun i =>
    match specBaseline w vs i with
    | none => false
    | some b => if b = 0 then false else decide (vs.getD i 0 / b > t)

/-- The synthetic series of the claim: twenty points of value 100 with
500 injected at index 15, at consecutive day numbers. -/
def exRows20 : List VolRow :=
  [⟨0, 100⟩, ⟨1, 100⟩, ⟨2, 100⟩, ⟨3, 100⟩, ⟨4, 100⟩, ⟨5, 100⟩, ⟨6, 100⟩,
   ⟨7, 100⟩, ⟨8, 100⟩, ⟨9, 100⟩, ⟨10, 100⟩, ⟨11, 100⟩, ⟨12, 100⟩, ⟨13, 100⟩,
   ⟨14, 100⟩, ⟨15, 500⟩, ⟨16, 100⟩, ⟨17, 100⟩, ⟨18, 100⟩, ⟨19, 100⟩]

/-- C1 (counterexample): on the two-point series `[100, 300]` with
`w = 10`, `t = 1.5`, the claim's exclusive-baseline rule flags index 1
(ratio `300/100 = 3 > 1.5`), but `detect_volume_spikes` emits nothing
(its rolling baseline includes the point itself: `300/200 = 1.5 ≯ 1.5`),
so the detector does not emit "exactly the points" the claim describes. -/
theorem c1_counterexample :
    detect_volume_spikes [⟨0, 100⟩, ⟨1, 300⟩] 10 (3/2) = [] ∧
    specSpikeIndices [100, 300] 10 (3/2) = [1] := by
  constructor
  · norm_num [detect_volume_spikes, sortRowsByDate, insertRowByDate, rollingMean,
      windowSlice, listMean, pdiv, PFloat.gtQ, List.range_succ]
  · norm_num [specSpikeIndices, specBaseline, listMean, List.range_succ]

/-- C1 (amended): on a date-sorted series the detector emits exactly the
points whose ratio to the *inclusive* rolling baseline — the mean of the
last `min (i+1) w` points, point `i` included — exceeds the threshold
under IEEE comparison, no point being skipped; on the constant series
`[100]*20` with 500 injected at index 15, `w = 10`, `t = 1.5`, it emits
exactly one spike event, at index 15, with baseline 140 and ratio
`25/7 ≈ 3.57`. -/
theorem c1_theorem :
    (∀ (rows : List VolRow) (w : ℕ) (t : ℚ) (e : SpikeEvent),
      sortRowsByDate rows = rows →
      (e ∈ detect_volume_spikes rows w t ↔
        ∃ i, ∃ hi : i < rows.length,
          (pdiv (rows.get ⟨i, hi⟩).volume (avgAt w rows i)).gtQ t = true ∧
          e = eventAt w rows i hi)) ∧
    detect_volume_spikes exRows20 10 (3/2) =
      [{ date := 15, volume := 500, avg_volume := 140, ratioVal := .fin (25/7) }] := by
  constructor
  · intro rows w t e hs
    exact mem_detect_volume_spikes_iff rows w t hs e
  · norm_num [exRows20, detect_volume_spikes, sortRowsByDate, insertRowByDate, rollingMean,
      windowSlice, listMean, pdiv, PFloat.gtQ, List.range_succ]

/-- C1 (witness): the characterization applied to the one-point series
`[100]` at threshold `1/2` produces the point as a spike. -/
theorem c1_witness :
    ({ date := 0, volume := 100, avg_volume := 100, ratioVal := .fin 1 } : SpikeEvent) ∈
      detect_volume_spikes [⟨0, 100⟩] 10 (1/2) := by
  refine (c1_theorem.1 [⟨0, 100⟩] 10 (1/2) _ (by rfl)).mpr ⟨0, by norm_num, ?_, ?_⟩
  · norm_num [avgAt, windowSlice, listMean, pdiv, PFloat.gtQ]
  · norm_num [eventAt, avgAt, windowSlice, listMean, pdiv]

/-- C4 (counterexample): the point at index 1 of the series
`[-100, 100]` has rolling baseline `(-100 + 100)/2 = 0`, yet the
detector emits an event for it — the pandas ratio is `+inf`, which
passes the `> threshold` filter — so a zero-baseline point is not
skipped. -/
theorem c4_counterexample :
    detect_volume_spikes [⟨0, -100⟩, ⟨1, 100⟩] 10 (3/2) =
      [{ date := 1, volume := 100, avg_volume := 0, ratioVal := .posInf }] := by
  norm_num [detect_volume_spikes, sortRowsByDate, insertRowByDate, rollingMean,
    windowSlice, listMean, pdiv, PFloat.gtQ, List.range_succ]

/-- C4 (amended): on a date-sorted series, a point whose rolling
baseline is zero is emitted precisely when its value is positive (its
ratio is then `+inf`, which exceeds every finite threshold); a
zero-baseline point with non-positive value is skipped, and in either
case no error is raised — the detector is a total function and the
remaining points are processed as usual. -/
theorem c4_theorem (rows : List VolRow) (w : ℕ) (t : ℚ) (i : ℕ)
    (hs : sortRowsByDate rows = rows) (hi : i < rows.length)
    (hz : avgAt w rows i = 0) :
    eventAt w rows i hi ∈ detect_volume_spikes rows w t ↔
      0 < (rows.get ⟨i, hi⟩).volume := by
  rw [mem_detect_volume_spikes_iff rows w t hs]
  simp only [List.get_eq_getElem]
  constructor
  · rintro ⟨j, hj, hp, heq⟩
    have hr : pdiv (rows[i]).volume (avgAt w rows i) =
        pdiv (rows[j]).volume (avgAt w rows j) := by
      have := congrArg SpikeEvent.ratioVal heq
      simpa [eventAt] using this
    rw [← hr] at hp
    by_contra hnp
    push_neg at hnp
    rcases lt_or_eq_of_le hnp with hlt | he
    · have hneg : pdiv (rows[i]).volume (avgAt w rows i) = .negInf := by
        simp [pdiv, hz, hlt, asymm hlt]
      rw [hneg] at hp
      simp [PFloat.gtQ] at hp
    · have hnan : pdiv (rows[i]).volume (avgAt w rows i) = .nan := by
        simp [pdiv, hz, ← he]
      rw [hnan] at hp
      simp [PFloat.gtQ] at hp
  · intro hpos
    refine ⟨i, hi, ?_, rfl⟩
    have hpi : pdiv (rows[i]).volume (avgAt w rows i) = .posInf := by
      simp [pdiv, hz, hpos]
    simp only [List.get_eq_getElem, hpi]
    rfl

/-- C4 (witness): the amended statement applied to the series
`[-100, 100]`, whose second point has zero baseline and positive value. -/
theorem c4_witness :
    eventAt 10 [⟨0, -100⟩, ⟨1, 100⟩] 1 (by norm_num) ∈
      detect_volume_spikes [⟨0, -100⟩, ⟨1, 100⟩] 10 (3/2) := by
  refine (c4_theorem [⟨0, -100⟩, ⟨1, 100⟩] 10 (3/2) 1 (by rfl) (by norm_num) ?_).mpr (by norm_num)
  norm_num [avgAt, windowSlice, listMean]

/-- C8 (counterexample): for the one-point series `[0]` with threshold
`1/2 < 1`, the first point's ratio is `0/0 = NaN`, not 1, and the point
is not flagged even though the threshold is below 1. -/
theorem c8_counterexample :
    detect_volume_spikes [⟨0, 0⟩] 10 (1/2) = [] ∧ ((1 : ℚ)/2 < 1) := by
  constructor
  · norm_num [detect_volume_spikes, sortRowsByDate, insertRowByDate, rollingMean,
      windowSlice, listMean, pdiv, PFloat.gtQ, List.range_succ]
  · norm_num

/-- C8 (amended): on a date-sorted non-empty series with `w ≥ 1`, the
rolling baseline of the first point is its own value (the window is the
last `min (i+1) w` points, point `i` included); provided that value is
nonzero, the first point's ratio is exactly 1 and the point is flagged
if and only if the threshold is below 1.  (A zero first value instead
yields a `NaN` ratio and the point is never flagged.) -/
theorem c8_theorem (rows : List VolRow) (w : ℕ) (t : ℚ)
    (hs : sortRowsByDate rows = rows) (hw : 1 ≤ w) (hlen : 0 < rows.length)
    (h0 : (rows.get ⟨0, hlen⟩).volume ≠ 0) :
    avgAt w rows 0 = (rows.get ⟨0, hlen⟩).volume ∧
    pdiv (rows.get ⟨0, hlen⟩).volume (avgAt w rows 0) = .fin 1 ∧
    (eventAt w rows 0 hlen ∈ detect_volume_spikes rows w t ↔ t < 1) := by
  obtain ⟨r, rest, rfl⟩ := List.exists_cons_of_ne_nil (List.ne_nil_of_length_pos hlen)
  have havg : avgAt w (r :: rest) 0 = r.volume := by
    simp [avgAt, windowSlice, Nat.sub_eq_zero_of_le hw, listMean]
  have hfin : pdiv ((r :: rest).get ⟨0, hlen⟩).volume (avgAt w (r :: rest) 0) = .fin 1 := by
    have h0r : r.volume ≠ 0 := by simpa using h0
    simp only [List.get_eq_getElem, List.getElem_cons_zero, havg]
    simp [pdiv, h0r, div_self h0r]
  refine ⟨by simpa using havg, by simpa using hfin, ?_⟩
  rw [mem_detect_volume_spikes_iff _ w t hs]
  constructor
  · rintro ⟨j, hj, hp, heq⟩
    have hr : pdiv ((r :: rest).get ⟨j, hj⟩).volume (avgAt w (r :: rest) j) = .fin 1 := by
      have := congrArg SpikeEvent.ratioVal heq
      simp only [eventAt] at this
      rw [← this]
      exact hfin
    rw [hr] at hp
    simpa [PFloat.gtQ] using hp
  · intro ht
    refine ⟨0, hlen, ?_, rfl⟩
    rw [hfin]
    simpa [PFloat.gtQ] using ht

/-- C8 (witness): the amended statement applied to the series
`[100, 100]` with `w = 10`, `t = 3/2`: baseline of the first point is
100, its ratio is 1, and it is not flagged since `3/2 ≥ 1`. -/
theorem c8_witness :
    avgAt 10 [⟨0, 100⟩, ⟨1, 100⟩] 0 = 100 ∧
    ¬(eventAt 10 [⟨0, 100⟩, ⟨1, 100⟩] 0 (by norm_num) ∈
        detect_volume_spikes [⟨0, 100⟩, ⟨1, 100⟩] 10 (3/2)) := by
  have h := c8_theorem [⟨0, 100⟩, ⟨1, 100⟩] 10 (3/2) (by rfl) (by norm_num) (by norm_num)
    (by norm_num)
  refine ⟨by simpa using h.1, fun hmem => ?_⟩
  have := h.2.2.mp hmem
  norm_num at this

lemma windowSlice_subset (w : ℕ) (vs : List ℚ) (i : ℕ) :
    ∀ x ∈ windowSlice w vs i, x ∈ vs := by
  intro x hx
  exact (vs.take_sublist (i + 1)).subset ((List.drop_sublist _ _).subset hx)

lemma windowSlice_ne_nil (w : ℕ) (vs : List ℚ) (i : ℕ) (hw : 1 ≤ w) (hi : i < vs.length) :
    windowSlice w vs i ≠ [] := by
  rw [← List.length_pos]
  have h1 : (vs.take (i + 1)).length = i + 1 := by
    rw [List.length_take]
    omega
  simp only [windowSlice, List.length_drop, h1]
  omega

lemma listMean_pos (l : List ℚ) (hne : l ≠ []) (h : ∀ x ∈ l, 0 < x) : 0 < listMean l := by
  have hlen : (0 : ℚ) < l.length := by
    exact_mod_cast List.length_pos.mpr hne
  exact div_pos (List.sum_pos l h hne) hlen

/-- Embedding of the thresholds block stored by
`CMEVolumeTracker.__init__`. -/
structure TrackerThresholds where
  volume_spike : ℚ
  oi_change : ℚ
  alert_period : ℤ
deriving DecidableEq, Repr

/-- Shallow embedding of the configuration handling in
`CMEVolumeTracker.__init__`: the thresholds are stored exactly as given;
no validity check of any kind is performed on them. -/
def cmeTrackerInitThresholds (cfg : TrackerThresholds) : TrackerThresholds := cfg

/-- C7 (counterexample): the non-positive spike threshold 0 is stored
unchanged at configuration time, and a detection run then executes
normally with it — returning spike events rather than being rejected as
an invalid-configuration error before any run. -/
theorem c7_counterexample :
    cmeTrackerInitThresholds ⟨0, 1/10, 7⟩ = ⟨0, 1/10, 7⟩ ∧
    detect_volume_spikes [⟨0, 100⟩, ⟨1, 100⟩] 10 0 =
      [{ date := 0, volume := 100, avg_volume := 100, ratioVal := .fin 1 },
       { date := 1, volume := 100, avg_volume := 100, ratioVal := .fin 1 }] := by
  refine ⟨rfl, ?_⟩
  norm_num [detect_volume_spikes, sortRowsByDate, insertRowByDate, rollingMean,
    windowSlice, listMean, pdiv, PFloat.gtQ, List.range_succ]

/-- C7 (amended): no validation of the spike threshold or the window
happens at configuration time — `__init__` stores any configuration —
and a detection run executes normally with a non-positive threshold: on
a date-sorted series of positive volumes with `w ≥ 1` and `t ≤ 0`,
every point is emitted as a spike. -/
theorem c7_theorem (rows : List VolRow) (w : ℕ) (t : ℚ)
    (hs : sortRowsByDate rows = rows) (hw : 1 ≤ w) (ht : t ≤ 0)
    (hpos : ∀ r ∈ rows, 0 < r.volume) :
    (∀ cfg : TrackerThresholds, cmeTrackerInitThresholds cfg = cfg) ∧
    (detect_volume_spikes rows w t).length = rows.length := by
  refine ⟨fun _ => rfl, ?_⟩
  unfold detect_volume_spikes
  rw [hs]
  have hfilter :
      ((rows.zip (rollingMean w (rows.map VolRow.volume))).filter
        fun rc => (pdiv rc.1.volume rc.2).gtQ t) =
      rows.zip (rollingMean w (rows.map VolRow.volume)) := by
    apply List.filter_eq_self.mpr
    intro rc hmem
    obtain ⟨h1, h2⟩ := List.of_mem_zip hmem
    simp only [rollingMean, List.mem_map, List.mem_range] at h2
    obtain ⟨i, hi, hmean⟩ := h2
    have hiv : i < (rows.map VolRow.volume).length := by simpa using hi
    have hposall : ∀ x ∈ windowSlice w (rows.map VolRow.volume) i, 0 < x := by
      intro x hx
      have hxv := windowSlice_subset w (rows.map VolRow.volume) i x hx
      rw [List.mem_map] at hxv
      obtain ⟨r, hr, rfl⟩ := hxv
      exact hpos r hr
    have havgpos : 0 < rc.2 := by
      rw [← hmean]
      exact listMean_pos _ (windowSlice_ne_nil w _ i hw hiv) hposall
    have hvpos : 0 < rc.1.volume := hpos _ h1
    have hq : 0 < rc.1.volume / rc.2 := div_pos hvpos havgpos
    simp [pdiv, ne_of_gt havgpos, PFloat.gtQ]
    exact lt_of_le_of_lt ht hq
  simp only [hfilter, List.length_map, List.length_zip, length_rollingMean, min_self]

/-- C7 (witness): the amended statement applied to the two-point series
`[100, 100]` with `w = 10`, `t = 0`: both points are emitted. -/
theorem c7_witness :
    (detect_volume_spikes [⟨0, 100⟩, ⟨1, 100⟩] 10 0).length = 2 := by
  have h := c7_theorem [⟨0, 100⟩, ⟨1, 100⟩] 10 0 (by rfl) (by norm_num) le_rfl
    (by
    intro r hr
    simp only [List.mem_cons, List.not_mem_nil, or_false] at hr
    rcases hr with rfl | rfl <;> norm_num)
  simpa using h.2

/-- One earnings-season window from the economic-calendar
configuration (`{"start": ..., "end": ..., "description": ...}`). -/
structure EarningsSeason where
  startDay : ℤ
  endDay : ℤ
  description : String
deriving DecidableEq, Repr

/-- The `economic_calendar` block of the tracker configuration. -/
structure EconomicCalendar where
  fomc_meetings : List ℤ
  earnings_seasons : List EarningsSeason
  economic_releases : List (ℤ × String)
deriving DecidableEq, Repr

/-- One entry of the `nearby_events` list built by
`check_economic_events`, one constructor per `type` string. -/
inductive EconEvent where
  | fomcMeeting (date : ℤ) (days_away : ℕ)
  | earningsSeason (description : String) (startDay endDay : ℤ)
  | upcomingEarnings (description : String) (startDay : ℤ) (days_away : ℤ)
  | economicRelease (description : String) (date : ℤ) (days_away : ℕ)
deriving DecidableEq, Repr

/-- Shallow embedding of `CMEVolumeTracker.check_economic_events`:
FOMC dates within 3 days, earnings seasons containing the date
("current") or with `abs(date - start) ≤ 5` outside the window
("upcoming", with `days_away = start - date`), and releases within
2 days, appended in configuration order. -/
def check_economic_events (cal : EconomicCalendar) (date : ℤ) : List EconEvent :=
  (cal.fomc_meetings.filterMap fun f =>
    if (date - f).natAbs ≤ 3 then some (.fomcMeeting f (date - f).natAbs) else none)
  ++ (cal.earnings_seasons.filterMap fun s =>
    if s.startDay ≤ date ∧ date ≤ s.endDay then
      some (.earningsSeason s.description s.startDay s.endDay)
    else if (date - s.startDay).natAbs ≤ 5 then
      some (.upcomingEarnings s.description s.startDay (s.startDay - date))
    else none)
  ++ (cal.economic_releases.filterMap fun r =>
    if (date - r.1).natAbs ≤ 2 then some (.economicRelease r.2 r.1 (date - r.1).natAbs) else none)

/-- C3 (counterexample): for the three-day earnings window `[0, 2]` and
query date 4 — strictly after the window's end — the matcher still
includes the event (classified "upcoming", `abs(4 - 0) = 4 ≤ 5`), so a
date after `end` can be flagged. -/
theorem c3_counterexample :
    EconEvent.upcomingEarnings "S" 0 (-4) ∈
      check_economic_events ⟨[], [⟨0, 2, "S"⟩], []⟩ 4 ∧ (2 : ℤ) < 4 := by
  constructor
  · simp [check_economic_events]
  · norm_num

/-- C3 (amended): the matcher includes an interval event classified as
current exactly when `start ≤ date ≤ end`; it includes it classified as
upcoming exactly when the date is outside `[start, end]` and
`|date − start| ≤ 5` days (so a date strictly after `end` is still
flagged as upcoming whenever it is within 5 days of `start`), with
`days_away = start − date`. -/
theorem c3_theorem (cal : EconomicCalendar) (date : ℤ) :
    (∀ desc sd ed,
      (EconEvent.earningsSeason desc sd ed ∈ check_economic_events cal date ↔
        (⟨sd, ed, desc⟩ : EarningsSeason) ∈ cal.earnings_seasons ∧
          sd ≤ date ∧ date ≤ ed)) ∧
    (∀ desc sd da,
      (EconEvent.upcomingEarnings desc sd da ∈ check_economic_events cal date ↔
        ∃ ed, (⟨sd, ed, desc⟩ : EarningsSeason) ∈ cal.earnings_seasons ∧
          ¬(sd ≤ date ∧ date ≤ ed) ∧ (date - sd).natAbs ≤ 5 ∧ da = sd - date)) := by
  constructor
  · intro desc sd ed
    simp only [check_economic_events, List.mem_append, List.mem_filterMap]
    constructor
    · rintro ((⟨f, _, hf⟩ | ⟨s, hs, hval⟩) | ⟨r, _, hr⟩)
      · split at hf <;> simp_all
      · by_cases hcur : s.startDay ≤ date ∧ date ≤ s.endDay
        · rw [if_pos hcur] at hval
          simp only [Option.some.injEq, EconEvent.earningsSeason.injEq] at hval
          obtain ⟨hdesc, hsd, hed⟩ := hval
          refine ⟨?_, by omega, by omega⟩
          have : s = ⟨sd, ed, desc⟩ := by
            cases s
            simp_all
          rwa [← this]
        · rw [if_neg hcur] at hval
          split at hval <;> simp_all
      · split at hr <;> simp_all
    · rintro ⟨hmem, h1, h2⟩
      refine Or.inl (Or.inr ⟨⟨sd, ed, desc⟩, hmem, ?_⟩)
      rw [if_pos ⟨h1, h2⟩]
  · intro desc sd da
    simp only [check_economic_events, List.mem_append, List.mem_filterMap]
    constructor
    · rintro ((⟨f, _, hf⟩ | ⟨s, hs, hval⟩) | ⟨r, _, hr⟩)
      · split at hf <;> simp_all
      · by_cases hcur : s.startDay ≤ date ∧ date ≤ s.endDay
        · rw [if_pos hcur] at hval
          simp at hval
        · rw [if_neg hcur] at hval
          by_cases hnear : (date - s.startDay).natAbs ≤ 5
          · rw [if_pos hnear] at hval
            simp only [Option.some.injEq, EconEvent.upcomingEarnings.injEq] at hval
            obtain ⟨hdesc, hsd, hda⟩ := hval
            refine ⟨s.endDay, ?_, ?_, ?_, ?_⟩
            · have : s = ⟨sd, s.endDay, desc⟩ := by
                cases s
                simp_all
              rwa [← this]
            · omega
            · omega
            · omega
          · rw [if_neg hnear] at hval
            simp at hval
      · split at hr <;> simp_all
    · rintro ⟨ed, hmem, hncur, hnear, hda⟩
      refine Or.inl (Or.inr ⟨⟨sd, ed, desc⟩, hmem, ?_⟩)
      rw [if_neg (by simpa using hncur), if_pos (by simpa using hnear)]
      simp [hda]

/-- The `interpretation` sub-dictionary stored for `economic_data` by
`_interpret_economic_data` (keys may be absent). -/
structure EconInterpretation where
  inflation : Option String
  growth : Option String
  labor_market : Option String
deriving DecidableEq, Repr

/-- The indicator interpretations consumed by `rate_macro_environment`:
each key of `self.indicators` is either absent or carries its
interpretation value. -/
structure IndicatorSet where
  vix : Option String
  treasury_yields : Option String
  economic_data : Option EconInterpretation
deriving DecidableEq, Repr

/-- Shallow embedding of `MacroSentimentAnalyzer._interpret_yield_curve`:
with a `10y_2y_spread` entry the spread is classified against the
inversion threshold and the literal `0.5`; without one the result is
the string `"unknown"`. -/
def interpret_yield_curve (inversion_threshold : ℚ) (spread : Option ℚ) : String :=
  match spread with
  | some s =>
    if s < inversion_threshold then "inverted"
    else if s < 1/2 then "flat"
    else "normal"
  | none => "unknown"

/-- The rating dictionary returned by `rate_macro_environment`
(`risk_sentiment` and `overall_environment` are always assigned;
`inflation_environment` and `growth_outlook` stay `None` when the
corresponding interpretation key is missing; `timestamp` is the wall
clock read by `datetime.now()`). -/
structure EnvironmentRating where
  risk_sentiment : String
  inflation_environment : Option String
  growth_outlook : Option String
  overall_environment : String
  timestamp : ℤ
deriving DecidableEq, Repr

/-- Shallow embedding of `MacroSentimentAnalyzer.rate_macro_environment`:
`None` when one of the three indicator keys is missing, otherwise the
rating computed from the interpretations — with the wall-clock reading
(`datetime.now()`) stored in the `timestamp` field of the result. -/
def rate_macro_environment (ind : IndicatorSet) (now : ℤ) : Option EnvironmentRating :=
  match ind.vix, ind.treasury_yields, ind.economic_data with
  | some vix_interp, some yc_interp, some econ_interp =>
    let risk :=
      if vix_interp = "low_volatility" ∧ yc_interp ≠ "inverted" then "risk_on"
      else if vix_interp = "high_volatility" ∨ yc_interp = "inverted" then "risk_off"
      else "neutral"
    let infl := econ_interp.inflation.map fun s =>
      if s = "high" then "inflationary"
      else if s = "low" then "deflationary"
      else "stable"
    let growth := econ_interp.growth
    let overall :=
      if risk = "risk_on" ∧ infl ≠ some "inflationary" then "bullish"
      else if risk = "risk_off" ∨ growth = some "contracting" then "bearish"
      else "neutral"
    some { risk_sentiment := risk, inflation_environment := infl,
           growth_outlook := growth, overall_environment := overall, timestamp := now }
  | _, _, _ => none

/-- The categorical fields of a rating — everything except the
timestamp. -/
def ratingCategorical (r : EnvironmentRating) : String × Option String × Option String × String :=
  (r.risk_sentiment, r.inflation_environment, r.growth_outlook, r.overall_environment)

/-- C5 (counterexample): two runs of the environment classifier on the
identical indicator input differ whenever the wall clock has moved,
because the returned rating embeds `datetime.now()` in its `timestamp`
field; the output is therefore not byte-identical across runs. -/
theorem c5_counterexample :
    rate_macro_environment
        ⟨some "low_volatility", some "normal", some ⟨some "moderate", some "moderate", none⟩⟩ 0 ≠
      rate_macro_environment
        ⟨some "low_volatility", some "normal", some ⟨some "moderate", some "moderate", none⟩⟩ 1 := by
  decide

/-- C5 (amended): the categorical content of the environment rating —
risk sentiment, inflation environment, growth outlook, overall
environment — is a deterministic function of the indicator
interpretations: identical inputs yield identical categorical fields for
any two clock readings; only the embedded `timestamp` field varies
between runs. -/
theorem c5_theorem (ind : IndicatorSet) (t1 t2 : ℤ) :
    (rate_macro_environment ind t1).map ratingCategorical =
      (rate_macro_environment ind t2).map ratingCategorical := by
  rcases ind with ⟨vix, yc, econ⟩
  rcases vix with _ | v <;> rcases yc with _ | y <;> rcases econ with _ | e <;>
    simp [rate_macro_environment, ratingCategorical]

/-- C9: a yields dictionary without the `10y_2y_spread` key is
interpreted as the distinct value `"unknown"`, which is not
`"inverted"`; consequently a low-volatility reading combined with an
unknown yield curve makes `rate_macro_environment` produce a rating
(not an insufficient-data `None`) whose `risk_sentiment` is
`"risk_on"`. -/
theorem c9_theorem (thr : ℚ) (econ : EconInterpretation) (now : ℤ) :
    interpret_yield_curve thr none = "unknown" ∧
    interpret_yield_curve thr none ≠ "inverted" ∧
    ∃ r, rate_macro_environment
        ⟨some "low_volatility", some (interpret_yield_curve thr none), some econ⟩ now =
          some r ∧
      r.risk_sentiment = "risk_on" := by
  refine ⟨rfl, by simp [interpret_yield_curve], ?_⟩
  refine ⟨_, rfl, ?_⟩
  simp [interpret_yield_curve]

/-- Sentiment category assigned to an article by `analyze_sentiment`. -/
inductive Senti where
  | bullish
  | bearish
  | neutral
deriving DecidableEq, Repr

/-- The per-article record appended to a symbol's `articles` list
(title, url, source, sentiment, VADER compound score). -/
structure ArticleRef where
  title : String
  url : String
  source : String
  sentiment : Senti
  score : ℚ
deriving DecidableEq, Repr

/-- One analyzed article as consumed by
`generate_position_suggestions`: its sentiment, compound score, and the
stock tickers and crypto tokens extracted from it. -/
structure AnalyzedArticle where
  title : String
  url : String
  source : String
  sentiment : Senti
  score : ℚ
  tickers : List String
  crypto : List String
deriving DecidableEq, Repr

/-- The per-symbol tally dictionary
`{'bullish': 0, 'bearish': 0, 'neutral': 0, 'articles': []}`. -/
structure SentTally where
  bullish : ℕ
  bearish : ℕ
  neutral : ℕ
  articles : List ArticleRef
deriving DecidableEq, Repr

def emptyTally : SentTally := ⟨0, 0, 0, []⟩

def mkArticleRef (a : AnalyzedArticle) : ArticleRef :=
  ⟨a.title, a.url, a.source, a.sentiment, a.score⟩

/-- One mention of a symbol: `data[article['sentiment']] += 1` plus the
append to `data['articles']`. -/
def bumpTally (t : SentTally) (s : Senti) (ref : ArticleRef) : SentTally :=
  match s with
  | .bullish => { t with bullish := t.bullish + 1, articles := t.articles ++ [ref] }
  | .bearish => { t with bearish := t.bearish + 1, articles := t.articles ++ [ref] }
  | .neutral => { t with neutral := t.neutral + 1, articles := t.articles ++ [ref] }

def tallyTotal (t : SentTally) : ℕ := t.bullish + t.bearish + t.neutral

def sentCount (t : SentTally) : Senti → ℕ
  | .bullish => t.bullish
  | .bearish => t.bearish
  | .neutral => t.neutral

/-- Update of the insertion-ordered symbol dictionary for one mention:
a fresh key is appended at the tail, an existing key's tally is bumped
in place. -/
def addMention (m : List (String × SentTally)) (sym : String) (s : Senti) (ref : ArticleRef) :
    List (String × SentTally) :=
  match m with
  | [] => [(sym, bumpTally emptyTally s ref)]
  | (k, t) :: rest =>
    if k = sym then (k, bumpTally t s ref) :: rest
    else (k, t) :: addMention rest sym s ref

/-- The grouping loop of `generate_position_suggestions`: iterate over
articles, and over each article's symbol list, accumulating the
insertion-ordered symbol dictionary. -/
def groupBySymbol (proj : AnalyzedArticle → List String) (arts : List AnalyzedArticle) :
    List (String × SentTally) :=
  arts.foldl
    (fun m a => (proj a).foldl (fun m2 sym => addMention m2 sym a.sentiment (mkArticleRef a)) m)
    []

/-- The overall-sentiment rule of `generate_position_suggestions`:
bullish when `bullish > bearish * 1.5`, else bearish when
`bearish > bullish * 1.5`, else neutral. -/
def overallSentiment (t : SentTally) : Senti :=
  if (t.bullish : ℚ) > (t.bearish : ℚ) * (3/2) then .bullish
  else if (t.bearish : ℚ) > (t.bullish : ℚ) * (3/2) then .bearish
  else .neutral

/-- Stable insertion for the descending sort of supporting articles by
absolute score (Python `sorted(key=abs(score), reverse=True)` keeps the
original order of equal keys). -/
def insertByAbsScore (r : ArticleRef) : List ArticleRef → List ArticleRef
  | [] => [r]
  | x :: xs => if |x.score| ≥ |r.score| then x :: insertByAbsScore r xs else r :: x :: xs

def sortByAbsScoreDesc (l : List ArticleRef) : List ArticleRef :=
  l.foldl (fun acc r => insertByAbsScore r acc) []

/-- One position suggestion.  The human-readable `rationale` string of
the source is presentation-only and not modelled. -/
structure Suggestion where
  symbol : String
  type : String
  sentiment : Senti
  confidence : ℚ
  article_count : ℕ
  supporting_articles : List ArticleRef
deriving DecidableEq, Repr

/-- The per-symbol suggestion loop: symbols with fewer than 2 tagged
articles are skipped; otherwise the overall sentiment, the confidence
`(count[sentiment]/total)*100`, and the top three supporting articles
are recorded. -/
def mkSuggestionsFor (assetType : String) (groups : List (String × SentTally)) :
    List Suggestion :=
  groups.filterMap fun kv =>
    if tallyTotal kv.2 < 2 then none
    else
      some { symbol := kv.1
             type := assetType
             sentiment := overallSentiment kv.2
             confidence := ((sentCount kv.2 (overallSentiment kv.2) : ℚ) / (tallyTotal kv.2 : ℚ)) * 100
             article_count := tallyTotal kv.2
             supporting_articles := (sortByAbsScoreDesc kv.2.articles).take 3 }

/-- The output dictionary `{'bullish': [...], 'bearish': [...],
'neutral': [...]}`. -/
structure Suggestions where
  bullish : List Suggestion
  bearish : List Suggestion
  neutral : List Suggestion
deriving DecidableEq, Repr

/-- Placement `suggestions[sentiment].append(suggestion)`: each
suggestion goes to the list keyed by its own sentiment. -/
def placeSuggestion (acc : Suggestions) (s : Suggestion) : Suggestions :=
  match s.sentiment with
  | .bullish => { acc with bullish := acc.bullish ++ [s] }
  | .bearish => { acc with bearish := acc.bearish ++ [s] }
  | .neutral => { acc with neutral := acc.neutral ++ [s] }

/-- Shallow embedding of
`NewsScraperSentiment.generate_position_suggestions`: empty input short
circuits to empty lists; otherwise stock-ticker suggestions are placed
first, then crypto-token suggestions.  The final per-category
reordering of the returned lists is not modelled; the properties proved
below are invariant under reordering within a category. -/
def generate_position_suggestions (arts : List AnalyzedArticle) : Suggestions :=
  if arts.isEmpty then ⟨[], [], []⟩
  else
    (mkSuggestionsFor "stock" (groupBySymbol (fun a => a.tickers) arts) ++
     mkSuggestionsFor "crypto" (groupBySymbol (fun a => a.crypto) arts)).foldl
      placeSuggestion ⟨[], [], []⟩

/-- C2: for any per-symbol tally with at least `min_items = 2` tagged
items, the majority sentiment is bullish exactly when
`bullish > bearish * 1.5`, bearish exactly when
`bearish > bullish * 1.5`, and neutral exactly when neither holds (even
if one category has a plurality); in particular counts
`bullish=6, bearish=3, neutral=1` give bullish and
`bullish=5, bearish=4` give neutral. -/
theorem c2_theorem :
    (∀ t : SentTally, 2 ≤ tallyTotal t →
      ((overallSentiment t = .bullish ↔ (t.bullish : ℚ) > (t.bearish : ℚ) * (3/2)) ∧
       (overallSentiment t = .bearish ↔ (t.bearish : ℚ) > (t.bullish : ℚ) * (3/2)) ∧
       (overallSentiment t = .neutral ↔
         (¬((t.bullish : ℚ) > (t.bearish : ℚ) * (3/2)) ∧
          ¬((t.bearish : ℚ) > (t.bullish : ℚ) * (3/2)))))) ∧
    overallSentiment ⟨6, 3, 1, []⟩ = .bullish ∧
    overallSentiment ⟨5, 4, 0, []⟩ = .neutral := by
  refine ⟨?_, by norm_num [overallSentiment], by norm_num [overallSentiment]⟩
  intro t _
  have hb : (0 : ℚ) ≤ (t.bullish : ℚ) := Nat.cast_nonneg _
  have hr : (0 : ℚ) ≤ (t.bearish : ℚ) := Nat.cast_nonneg _
  have hexcl : ¬((t.bullish : ℚ) > (t.bearish : ℚ) * (3/2) ∧
      (t.bearish : ℚ) > (t.bullish : ℚ) * (3/2)) := by
    rintro ⟨h1, h2⟩
    nlinarith
  unfold overallSentiment
  split_ifs with h1 h2
  · refine ⟨by simp [h1], ?_, ?_⟩
    · constructor
      · intro h
        simp at h
      · intro h
        exact absurd ⟨h1, h⟩ hexcl
    · constructor
      · intro h
        simp at h
      · rintro ⟨hc, _⟩
        exact absurd h1 hc
  · refine ⟨?_, by simp [h2], ?_⟩
    · constructor
      · intro h
        simp at h
      · intro h
        exact absurd h h1
    · constructor
      · intro h
        simp at h
      · rintro ⟨_, hc⟩
        exact absurd h2 hc
  · refine ⟨?_, ?_, by simp [h1, h2]⟩
    · constructor
      · intro h
        simp at h
      · intro h
        exact absurd h h1
    · constructor
      · intro h
        simp at h
      · intro h
        exact absurd h h2

/-- C2 (witness): the rule applied to the boundary tally
`bullish=6, bearish=3, neutral=1` (total 10 ≥ 2): bullish since
`6 > 3 × 1.5 = 4.5`. -/
theorem c2_witness :
    overallSentiment ⟨6, 3, 1, []⟩ = .bullish ∧
    ((6 : ℚ) > (3 : ℚ) * (3/2)) :=
  ⟨((c2_theorem.1 ⟨6, 3, 1, []⟩ (by norm_num [tallyTotal])).1).mpr (by norm_num),
   by norm_num⟩

lemma tallyTotal_bump (t : SentTally) (s : Senti) (ref : ArticleRef) :
    tallyTotal (bumpTally t s ref) = tallyTotal t + 1 := by
  cases s <;> simp [bumpTally, tallyTotal] <;> omega

/-- Combined number of tagged items recorded for key `k` in the symbol
dictionary (0 when absent). -/
def totalOf (m : List (String × SentTally)) (k : String) : ℕ :=
  ((m.filter fun kv => kv.1 = k).map fun kv => tallyTotal kv.2).sum

lemma totalOf_nil (k : String) : totalOf [] k = 0 := rfl

lemma totalOf_cons (a : String × SentTally) (l : List (String × SentTally)) (k : String) :
    totalOf (a :: l) k = (if a.1 = k then tallyTotal a.2 else 0) + totalOf l k := by
  by_cases h : a.1 = k <;> simp [totalOf, List.filter_cons, h]

lemma totalOf_addMention (m : List (String × SentTally)) (sym : String) (s : Senti)
    (ref : ArticleRef) (k : String) :
    totalOf (addMention m sym s ref) k = totalOf m k + if sym = k then 1 else 0 := by
  induction m with
  | nil =>
    simp only [addMention, totalOf_cons, totalOf_nil, tallyTotal_bump]
    split_ifs <;> simp [tallyTotal, emptyTally]
  | cons kv rest ih =>
    obtain ⟨k1, t1⟩ := kv
    by_cases h : k1 = sym
    · subst h
      simp only [addMention, eq_self_iff_true, if_true, totalOf_cons, tallyTotal_bump]
      split_ifs <;> omega
    · simp only [addMention, if_neg h, totalOf_cons, ih]
      omega

/-- Number of times symbol `sym` occurs among the `proj`-lists of the
articles (each occurrence is one tally increment). -/
def mentionCount (proj : AnalyzedArticle → List String) (arts : List AnalyzedArticle)
    (sym : String) : ℕ :=
  (arts.map fun a => (proj a).count sym).sum

lemma totalOf_foldl_addMention (syms : List String) (sen : Senti) (ref : ArticleRef)
    (m : List (String × SentTally)) (k : String) :
    totalOf (syms.foldl (fun m2 sym => addMention m2 sym sen ref) m) k =
      totalOf m k + syms.count k := by
  induction syms generalizing m with
  | nil => simp
  | cons s2 rest ih =>
    rw [List.foldl_cons, ih, totalOf_addMention, List.count_cons]
    by_cases h : s2 = k
    · simp [h]
      omega
    · simp [h, Ne.symm h]
  
lemma totalOf_groupBySymbol (proj : AnalyzedArticle → List String)
    (arts : List AnalyzedArticle) (k : String) :
    totalOf (groupBySymbol proj arts) k = mentionCount proj arts k := by
  suffices h : ∀ m, totalOf (arts.foldl
      (fun m a => (proj a).foldl (fun m2 sym => addMention m2 sym a.sentiment (mkArticleRef a)) m)
      m) k = totalOf m k + mentionCount proj arts k by
    simpa [groupBySymbol, totalOf_nil] using h []
  induction arts with
  | nil => intro m; simp [mentionCount]
  | cons a rest ih =>
    intro m
    rw [List.foldl_cons, ih, totalOf_foldl_addMention]
    simp [mentionCount]
    omega

lemma tallyTotal_le_totalOf (m : List (String × SentTally)) (kv : String × SentTally)
    (h : kv ∈ m) : tallyTotal kv.2 ≤ totalOf m kv.1 := by
  induction m with
  | nil => cases h
  | cons a l ih =>
    rw [totalOf_cons]
    rcases List.mem_cons.1 h with rfl | hmem
    · simp
    · exact le_add_of_nonneg_of_le (Nat.zero_le _) (ih hmem)

lemma mem_mkSuggestionsFor {ty : String} {groups : List (String × SentTally)} {s : Suggestion}
    (h : s ∈ mkSuggestionsFor ty groups) :
    ∃ kv, kv ∈ groups ∧ 2 ≤ tallyTotal kv.2 ∧
      s = { symbol := kv.1, type := ty, sentiment := overallSentiment kv.2
            confidence := ((sentCount kv.2 (overallSentiment kv.2) : ℚ) /
              (tallyTotal kv.2 : ℚ)) * 100
            article_count := tallyTotal kv.2
            supporting_articles := (sortByAbsScoreDesc kv.2.articles).take 3 } := by
  rw [mkSuggestionsFor, List.mem_filterMap] at h
  obtain ⟨kv, hkv, hf⟩ := h
  by_cases hlt : tallyTotal kv.2 < 2
  · rw [if_pos hlt] at hf
    cases hf
  · rw [if_neg hlt] at hf
    exact ⟨kv, hkv, by omega, (Option.some.injEq _ _ ▸ hf).symm⟩

lemma foldl_place_bullish (l : List Suggestion) (acc : Suggestions) :
    (l.foldl placeSuggestion acc).bullish =
      acc.bullish ++ l.filter fun s => s.sentiment = Senti.bullish := by
  induction l generalizing acc with
  | nil => simp
  | cons a l ih =>
    rw [List.foldl_cons, ih, List.filter_cons]
    cases ha : a.sentiment <;> simp [placeSuggestion, ha]

lemma foldl_place_bearish (l : List Suggestion) (acc : Suggestions) :
    (l.foldl placeSuggestion acc).bearish =
      acc.bearish ++ l.filter fun s => s.sentiment = Senti.bearish := by
  induction l generalizing acc with
  | nil => simp
  | cons a l ih =>
    rw [List.foldl_cons, ih, List.filter_cons]
    cases ha : a.sentiment <;> simp [placeSuggestion, ha]

lemma foldl_place_neutral (l : List Suggestion) (acc : Suggestions) :
    (l.foldl placeSuggestion acc).neutral =
      acc.neutral ++ l.filter fun s => s.sentiment = Senti.neutral := by
  induction l generalizing acc with
  | nil => simp
  | cons a l ih =>
    rw [List.foldl_cons, ih, List.filter_cons]
    cases ha : a.sentiment <;> simp [placeSuggestion, ha]

/-- Any suggestion found in one of the three output lists comes from
the concatenated stock-then-crypto suggestion list. -/
lemma mem_output_mem_all {arts : List AnalyzedArticle} {s : Suggestion}
    (h : s ∈ (generate_position_suggestions arts).bullish ∨
         s ∈ (generate_position_suggestions arts).bearish ∨
         s ∈ (generate_position_suggestions arts).neutral) :
    s ∈ mkSuggestionsFor "stock" (groupBySymbol (fun a => a.tickers) arts) ++
        mkSuggestionsFor "crypto" (groupBySymbol (fun a => a.crypto) arts) := by
  unfold generate_position_suggestions at h
  by_cases he : arts.isEmpty
  · simp [he] at h
  · rw [if_neg he] at h
    rcases h with h | h | h
    · rw [foldl_place_bullish] at h
      simp only [List.nil_append] at h
      exact List.mem_of_mem_filter h
    · rw [foldl_place_bearish] at h
      simp only [List.nil_append] at h
      exact List.mem_of_mem_filter h
    · rw [foldl_place_neutral] at h
      simp only [List.nil_append] at h
      exact List.mem_of_mem_filter h

/-- C6: a symbol mentioned fewer than `min_items = 2` times as a stock
ticker and fewer than 2 times as a crypto token is excluded from the
consensus output entirely: no suggestion in any of the three output
categories carries that symbol. -/
theorem c6_theorem (arts : List AnalyzedArticle) (sym : String)
    (h1 : mentionCount (fun a => a.tickers) arts sym < 2)
    (h2 : mentionCount (fun a => a.crypto) arts sym < 2) :
    ∀ s : Suggestion,
      (s ∈ (generate_position_suggestions arts).bullish ∨
       s ∈ (generate_position_suggestions arts).bearish ∨
       s ∈ (generate_position_suggestions arts).neutral) →
      s.symbol ≠ sym := by
  intro s hmem heq
  rcases List.mem_append.1 (mem_output_mem_all hmem) with hst | hcr
  · obtain ⟨kv, hkv, htot, rfl⟩ := mem_mkSuggestionsFor hst
    have hle := tallyTotal_le_totalOf _ _ hkv
    rw [totalOf_groupBySymbol] at hle
    simp only at heq
    rw [heq] at hle
    omega
  · obtain ⟨kv, hkv, htot, rfl⟩ := mem_mkSuggestionsFor hcr
    have hle := tallyTotal_le_totalOf _ _ hkv
    rw [totalOf_groupBySymbol] at hle
    simp only at heq
    rw [heq] at hle
    omega

/-- C6 (witness): a single bullish article mentioning `AAPL` once gives
`AAPL` one tagged item, below the minimum of 2, so no output category
mentions `AAPL`. -/
theorem c6_witness :
    "AAPL" ∉ (generate_position_suggestions
        [⟨"t1", "u1", "s1", .bullish, 1/2, ["AAPL"], []⟩]).bullish.map Suggestion.symbol := by
  intro hmem
  rw [List.mem_map] at hmem
  obtain ⟨s, hs, hsym⟩ := hmem
  exact c6_theorem _ "AAPL" (by norm_num [mentionCount]) (by norm_num [mentionCount])
    s (Or.inl hs) hsym

lemma sentCount_le_tallyTotal (t : SentTally) (x : Senti) : sentCount t x ≤ tallyTotal t := by
  cases x <;> simp [sentCount, tallyTotal] <;> omega

/-- The two-article fixture used for the aggregator counterexample:
one bullish and one bearish article, both tagging `AAPL`. -/
def exArts2 : List AnalyzedArticle :=
  [⟨"t1", "u1", "s1", .bullish, 1/2, ["AAPL"], []⟩,
   ⟨"t2", "u2", "s2", .bearish, -1/2, ["AAPL"], []⟩]

/-- C10 (counterexample): with one bullish and one bearish article on
`AAPL`, the suggestion is neutral with `confidence = (0/2)*100 = 0`,
which does not lie in `(0, 100]` — the majority category (neutral) has
zero supporting items. -/
theorem c10_counterexample :
    (generate_position_suggestions exArts2).neutral.map Suggestion.confidence = [0] ∧
    (generate_position_suggestions exArts2).bullish = [] ∧
    (generate_position_suggestions exArts2).bearish = [] := by
  norm_num [exArts2, generate_position_suggestions, groupBySymbol, addMention, mkArticleRef,
    bumpTally, emptyTally, mkSuggestionsFor, tallyTotal, overallSentiment, sentCount,
    sortByAbsScoreDesc, insertByAbsScore, placeSuggestion, List.foldl]

/-- C10 (amended): every emitted suggestion has `article_count ≥ 2`,
confidence equal to 100 times the majority count divided by the total —
lying in `[0, 100]`, with 0 possible when the majority category has no
items — and each suggestion is stored in the output list keyed by its
own sentiment, so the three lists partition the emitted suggestions by
sentiment. -/
theorem c10_theorem (arts : List AnalyzedArticle) (s : Suggestion) :
    ((s ∈ (generate_position_suggestions arts).bullish → s.sentiment = Senti.bullish) ∧
     (s ∈ (generate_position_suggestions arts).bearish → s.sentiment = Senti.bearish) ∧
     (s ∈ (generate_position_suggestions arts).neutral → s.sentiment = Senti.neutral)) ∧
    ((s ∈ (generate_position_suggestions arts).bullish ∨
      s ∈ (generate_position_suggestions arts).bearish ∨
      s ∈ (generate_position_suggestions arts).neutral) →
      2 ≤ s.article_count ∧ 0 ≤ s.confidence ∧ s.confidence ≤ 100 ∧
      ∃ t : SentTally, s.sentiment = overallSentiment t ∧
        s.article_count = tallyTotal t ∧
        s.confidence = ((sentCount t (overallSentiment t) : ℚ) / (tallyTotal t : ℚ)) * 100) := by
  constructor
  · refine ⟨fun h => ?_, fun h => ?_, fun h => ?_⟩ <;>
      unfold generate_position_suggestions at h <;>
      by_cases he : arts.isEmpty
    · simp [he] at h
    · rw [if_neg he, foldl_place_bullish] at h
      simpa using (List.mem_filter.1 h).2
    · simp [he] at h
    · rw [if_neg he, foldl_place_bearish] at h
      simpa using (List.mem_filter.1 h).2
    · simp [he] at h
    · rw [if_neg he, foldl_place_neutral] at h
      simpa using (List.mem_filter.1 h).2
  · intro h
    have hall := mem_output_mem_all h
    have key : ∃ kv : String × SentTally, 2 ≤ tallyTotal kv.2 ∧
        s.sentiment = overallSentiment kv.2 ∧
        s.article_count = tallyTotal kv.2 ∧
        s.confidence = ((sentCount kv.2 (overallSentiment kv.2) : ℚ) /
          (tallyTotal kv.2 : ℚ)) * 100 := by
      rcases List.mem_append.1 hall with hst | hcr
      · obtain ⟨kv, _, htot, rfl⟩ := mem_mkSuggestionsFor hst
        exact ⟨kv, htot, rfl, rfl, rfl⟩
      · obtain ⟨kv, _, htot, rfl⟩ := mem_mkSuggestionsFor hcr
        exact ⟨kv, htot, rfl, rfl, rfl⟩
    obtain ⟨kv, htot, hsen, hcount, hconf⟩ := key
    have hTpos : (0 : ℚ) < (tallyTotal kv.2 : ℚ) := by
      exact_mod_cast Nat.lt_of_lt_of_le (by norm_num) htot
    have hcle : (sentCount kv.2 (overallSentiment kv.2) : ℚ) ≤ (tallyTotal kv.2 : ℚ) := by
      exact_mod_cast sentCount_le_tallyTotal kv.2 (overallSentiment kv.2)
    have hc0 : (0 : ℚ) ≤ (sentCount kv.2 (overallSentiment kv.2) : ℚ) := Nat.cast_nonneg _
    refine ⟨by omega, ?_, ?_, kv.2, hsen, hcount, hconf⟩
    · rw [hconf]
      positivity
    · rw [hconf]
      have hdiv : (sentCount kv.2 (overallSentiment kv.2) : ℚ) / (tallyTotal kv.2 : ℚ) ≤ 1 :=
        (div_le_one hTpos).mpr hcle
      nlinarith

/-- C10 (witness): the invariants applied to the suggestion produced
from the two-article `AAPL` fixture. -/
theorem c10_witness :
    2 ≤ (⟨"AAPL", "stock", .neutral, 0, 2,
        [⟨"t1", "u1", "s1", .bullish, 1/2⟩, ⟨"t2", "u2", "s2", .bearish, -1/2⟩]⟩ :
        Suggestion).article_count ∧
    (0 : ℚ) ≤ (⟨"AAPL", "stock", .neutral, 0, 2,
        [⟨"t1", "u1", "s1", .bullish, 1/2⟩, ⟨"t2", "u2", "s2", .bearish, -1/2⟩]⟩ :
        Suggestion).confidence := by
  have h := (c10_theorem exArts2
    ⟨"AAPL", "stock", .neutral, 0, 2,
      [⟨"t1", "u1", "s1", .bullish, 1/2⟩, ⟨"t2", "u2", "s2", .bearish, -1/2⟩]⟩).2
    (Or.inr (Or.inr (by
      norm_num [exArts2, generate_position_suggestions, groupBySymbol, addMention, mkArticleRef,
        bumpTally, emptyTally, mkSuggestionsFor, tallyTotal, overallSentiment, sentCount,
        sortByAbsScoreDesc, insertByAbsScore, placeSuggestion, List.foldl])))
  exact ⟨h.1, h.2.1⟩
